import Mathlib

/-!
Verification of the parameter-reference resolver (`src/resolver/resolver.go`).

The Go source is shallowly embedded below.  Pure string manipulation is
translated into executable Lean functions on `List Char` / `String`;
the external collaborators (the SSM store client and the file I/O shim),
which are repository code not present under `src/`, are modelled from the
specification as abstract function parameters.  `log.Fatal` (which
terminates the process) and `regexp.MustCompile` failures (which panic)
are modelled as distinguished outcomes of a `GoOutcome` type, so that
"returns an error to the caller" and "kills the process" are
distinguishable in theorems.

Modelling notes on the placeholder syntax: the two regular expressions
`parameterPlaceholder` and `secureParameterPlaceholder` are declared in a
repository file that is not under `src/`.  Following the specification
(sections 4.1 and 6): a placeholder is `{{ <ws>* reference <ws>* }}` where
the reference is a nonempty run of reference characters, and the secure
form is distinguished from the plain form solely by the reference carrying
the `ssm-secure:` prefix.  Reference characters are modelled as
alphanumerics plus `_ - / :` (the specification's examples use exactly
these), all of which are regex-literal characters, so the scanners below
match the leftmost-nonoverlapping semantics of Go's
`FindAllStringSubmatch` and `ReplaceAllString` exactly on this alphabet.
`\s` is Go's whitespace class `[ \t\n\f\r]`.
-/

namespace Resolver

/-- Whitespace characters of Go's regexp class `\s`. -/
def isWsChar (c : Char) : Bool :=
  c = ' ' || c = '\t' || c = '\n' || c = '\r' || c = '\x0c'

/-- Characters allowed inside a parameter reference (modelled from the
spec's reference examples: alphanumerics and `_ - / :`). -/
def isRefChar (c : Char) : Bool :=
  c.isAlphanum || c = '_' || c = '-' || c = '/' || c = ':'

/-- Secure-reference tag (constant of the repository, value from the spec). -/
def ssmSecurePrefix : String := "ssm-secure:"

/-- Parameter type enumeration (`plain-string`, `string-list`,
`secure-string` per the spec's data model). -/
inductive ParamType : Type where
  | plainString : ParamType
  | stringList : ParamType
  | secureString : ParamType
deriving DecidableEq, Repr

/-- Resolved state of a parameter reference (Go struct `SsmParameterInfo`;
`Type_` stands for the Go field `Type`, which is a keyword in Lean). -/
structure SsmParameterInfo : Type where
  Value : String
  Type_ : ParamType
deriving DecidableEq, Repr

/-- Caller options (Go struct `ResolveOptions`). -/
structure ResolveOptions : Type where
  ResolveSecureParameters : Bool
deriving DecidableEq, Repr

/-- A Go `map[string]SsmParameterInfo`, embedded as an association list.
Go map iteration order is unspecified; theorems that depend on iteration
order quantify over permutations of this list. -/
abbrev RMap : Type := List (String × SsmParameterInfo)

/-- Result of a Go call: either the process died (`log.Fatal`), or the
call panicked (`regexp.MustCompile` on a bad pattern), or it returned. -/
inductive GoOutcome (α : Type) : Type where
  | fatal : String → GoOutcome α
  | panicked : String → GoOutcome α
  | ret : α → GoOutcome α
deriving DecidableEq, Repr

/-- Go's `strings.HasPrefix`, on the character-list model of strings. -/
def hasPrefix (pre s : String) : Bool := pre.toList.isPrefixOf s.toList

/-- Drop the maximal leading run of `\s` characters (the greedy `\s*`). -/
def dropWs : List Char → List Char
  | [] => []
  | c :: cs => if isWsChar c then dropWs cs else c :: cs

/-- Recognise the closing `}}` of a placeholder and return the remainder. -/
def closeBraces (x : List Char) : Option (List Char) :=
  match x with
  | d1 :: d2 :: u => if d1 = '\x7d' ∧ d2 = '\x7d' then some u else none
  | _ => none

/-- Match the compiled pattern `{{\s*` ++ `r` ++ `\s*}}` (with `r` taken
literally, as it is on the reference alphabet) against a prefix of `t`;
return the remainder after the match.  This is the per-reference pattern
built by the substitution loop of `ResolveParametersInText`. -/
def matchPH (r : List Char) (t : List Char) : Option (List Char) :=
  match t with
  | c1 :: c2 :: rest =>
    if c1 = '\x7b' ∧ c2 = '\x7b' then
      if r.isPrefixOf (dropWs rest) then
        closeBraces (dropWs ((dropWs rest).drop r.length))
      else none
    else none
  | _ => none

/-- Match one placeholder (either syntax) at the head of `t` and capture
the reference: the first capture group, i.e. the maximal nonempty run of
reference characters between the braces. -/
def matchCapture (t : List Char) : Option (List Char × List Char) :=
  match t with
  | c1 :: c2 :: rest =>
    if c1 = '\x7b' ∧ c2 = '\x7b' then
      if (dropWs rest).takeWhile isRefChar = [] then none
      else
        (closeBraces (dropWs
            ((dropWs rest).drop ((dropWs rest).takeWhile isRefChar).length))).map
          (fun u => ((dropWs rest).takeWhile isRefChar, u))
    else none
  | _ => none

/-- Fuelled scanner collecting all placeholder references left to right,
non-overlapping (the semantics of `FindAllStringSubmatch(text, -1)`).
The fuel is only a termination device; `findAllRefs` supplies `t.length`,
which always suffices because a match consumes at least one character. -/
def findAllRefsF : Nat → List Char → List String
  | 0, _ => []
  | _ + 1, [] => []
  | fuel + 1, c :: cs =>
    match matchCapture (c :: cs) with
    | some (r, u) => String.mk r :: findAllRefsF fuel u
    | none => findAllRefsF fuel cs

/-- All placeholder references occurring in `t`, in match order. -/
def findAllRefs (t : List Char) : List String := findAllRefsF t.length t

/-- Characters usable in a `$name` reference of a Go replacement template
(letters, digits, underscore — Go's `extract`). -/
def isNameChar (c : Char) : Bool := c.isAlphanum || c = '_'

/-- Parse a `$name` / `${name}` reference at the head of a template suffix
(the text right after a `$`), as Go's `regexp.extract` does: the longest
nonempty run of name characters, optionally braced; `none` when no
well-formed reference starts here (then the `$` is literal). -/
def extractName (s : List Char) : Option (List Char × List Char) :=
  match s with
  | [] => none
  | c :: s2 =>
    if c = '\x7b' then
      if s2.takeWhile isNameChar = [] then none
      else
        match s2.drop (s2.takeWhile isNameChar).length with
        | d :: rest => if d = '\x7d' then some (s2.takeWhile isNameChar, rest) else none
        | [] => none
    else
      if s.takeWhile isNameChar = [] then none
      else some (s.takeWhile isNameChar, s.drop (s.takeWhile isNameChar).length)

/-- Expansion of a Go replacement template against one match, as
`ReplaceAllString` performs it (`Regexp.expand`): `$$` emits a literal
`$`; the reference `$0` (also `${0}`) re-inserts the whole matched text;
every other `$name` reference expands to the empty string, because the
per-reference pattern `{{\s*ref\s*}}` contains no capture groups and Go
replaces out-of-range or unknown groups by the empty string (a purely
numeric name with a leading zero, such as `00`, is treated by Go as a
group name and is likewise unknown); a `$` not followed by a well-formed
reference stays literal.  The fuel is only a termination device;
`expandTemplate` supplies the template's length. -/
def expandTemplateF (matched : List Char) : Nat → List Char → List Char
  | 0, t => t
  | _ + 1, [] => []
  | fuel + 1, c :: cs =>
    if c = '$' then
      match cs with
      | [] => ['$']
      | c2 :: cs2 =>
        if c2 = '$' then '$' :: expandTemplateF matched fuel cs2
        else
          match extractName (c2 :: cs2) with
          | some (name, rest) =>
            (if name = ['0'] then matched else []) ++ expandTemplateF matched fuel rest
          | none => '$' :: expandTemplateF matched fuel (c2 :: cs2)
    else c :: expandTemplateF matched fuel cs

/-- Go's `$`-template expansion of replacement `v` for one match. -/
def expandTemplate (matched v : List Char) : List Char :=
  expandTemplateF matched v.length v

/-- Fuelled `ReplaceAllString` for the pattern of reference `r`: replace
every non-overlapping leftmost match with the `$`-template expansion of
`v` against that match (the matched text is the consumed prefix). -/
def replaceAllF (r v : List Char) : Nat → List Char → List Char
  | 0, t => t
  | _ + 1, [] => []
  | fuel + 1, c :: cs =>
    match matchPH r (c :: cs) with
    | some u =>
      expandTemplate ((c :: cs).take ((c :: cs).length - u.length)) v
        ++ replaceAllF r v fuel u
    | none => c :: replaceAllF r v fuel cs

/-- Go's `placeholder.ReplaceAllString(text, v)` for the pattern of `r`,
including the `$`-sign replacement-template semantics. -/
def replaceAll (r v t : List Char) : List Char := replaceAllF r v t.length t

/-- First-occurrence deduplication.  The Go source materialises a
`map[string]bool` and then iterates its keys in unspecified order; the key
SET is what the program relies on, and this canonical ordering represents
it. -/
def dedupFirst (l : List String) : List String :=
  l.foldl (fun acc e => if e ∈ acc then acc else acc ++ [e]) []

/-- Go function `dedupSlice` (hash-set insertion, then key collection). -/
def dedupSlice (slice : List String) : List String := dedupFirst slice

/-- References matched by the plain placeholder pattern
(`matchedPhrases` in the Go source). -/
def plainRefs (text : String) : List String :=
  (findAllRefs text.toList).filter (fun r => !hasPrefix ssmSecurePrefix r)

/-- References matched by the secure placeholder pattern
(`matchedSecurePhrases` in the Go source). -/
def secureRefs (text : String) : List String :=
  (findAllRefs text.toList).filter (fun r => hasPrefix ssmSecurePrefix r)

/-- Go function `parseParametersFromTextIntoMap`: run both placeholder
patterns over the text, fail fast on any secure-form placeholder when
secure resolution is not allowed, otherwise return the deduplicated
references of both forms. -/
def parseParametersFromTextIntoMap (text : String) (options : ResolveOptions) :
    Except String (List String) :=
  if options.ResolveSecureParameters = false ∧ 0 < (secureRefs text).length then
    Except.error "resolving secure parameters is not allowed"
  else
    Except.ok (dedupFirst (plainRefs text ++ secureRefs text))

/-- Modelled from the spec: `getParametersFromSsmParameterStore` lives in a
repository file not under `src/`.  Per spec section 4.2 the lookup port is
an abstract capability that, given a non-empty set of references, returns
a mapping from each resolvable reference to its Parameter Info, or a store
error; for an empty reference set no store access happens and the result
is the empty mapping (required by spec section 8's no-placeholder
property).  The store itself is the abstract parameter `service`. -/
def getParametersFromSsmParameterStore
    (service : List String → Except String RMap) (refs : List String) :
    Except String RMap :=
  if refs.isEmpty then Except.ok [] else service refs

/-- Policy-filter predicate of the post-lookup check: an entry is
secure-classified if its key carries the secure tag or its stored type is
secure-string. -/
def isSecureEntry (kv : String × SsmParameterInfo) : Bool :=
  hasPrefix ssmSecurePrefix kv.1 || kv.2.Type_ = ParamType.secureString

/-- Go function `ExtractParametersFromText`.  The second component records
each invocation of the lookup port (`getParametersFromSsmParameterStore`)
together with the reference set passed to it.  A store error hits
`log.Fatal(err)` in the source, modelled as `GoOutcome.fatal`; the
`return nil, err` after it is dead code.  The returned pair models Go's
`(map, error)` with `none` for a `nil` map. -/
def ExtractParametersFromText
    (service : List String → Except String RMap)
    (input : String) (options : ResolveOptions) :
    GoOutcome (Option RMap × Option String) × List (List String) :=
  match parseParametersFromTextIntoMap input options with
  | Except.error e => (GoOutcome.ret (none, some e), [])
  | Except.ok uniqueParameterReferences =>
    match getParametersFromSsmParameterStore service uniqueParameterReferences with
    | Except.error e => (GoOutcome.fatal e, [uniqueParameterReferences])
    | Except.ok parametersWithValues =>
      if options.ResolveSecureParameters = false then
        if 0 < (parametersWithValues.filter isSecureEntry).length then
          (GoOutcome.ret (none, some "resolving secure parameters is not allowed"),
            [uniqueParameterReferences])
        else
          (GoOutcome.ret (some parametersWithValues, none), [uniqueParameterReferences])
      else
        (GoOutcome.ret (some parametersWithValues, none), [uniqueParameterReferences])

/-- Go function `ResolveParameterReferenceList`: dedup the explicit list,
look it up, apply the same policy filter as `ExtractParametersFromText`. -/
def ResolveParameterReferenceList
    (service : List String → Except String RMap)
    (parameterReferences : List String) (options : ResolveOptions) :
    GoOutcome (Option RMap × Option String) × List (List String) :=
  match getParametersFromSsmParameterStore service (dedupSlice parameterReferences) with
  | Except.error e => (GoOutcome.fatal e, [dedupSlice parameterReferences])
  | Except.ok parametersWithValues =>
    if options.ResolveSecureParameters = false then
      if 0 < (parametersWithValues.filter isSecureEntry).length then
        (GoOutcome.ret (none, some "resolving secure parameters is not allowed"),
          [dedupSlice parameterReferences])
      else
        (GoOutcome.ret (some parametersWithValues, none), [dedupSlice parameterReferences])
    else
      (GoOutcome.ret (some parametersWithValues, none), [dedupSlice parameterReferences])

/-- Key admissible for `regexp.MustCompile("{{\s*" + ref + "\s*}}")`.
Modelled from Go's regexp semantics (the standard library is not part of
`src/`): on the reference alphabet every character is a regex literal, so
the pattern compiles and matches the literal placeholder; a key outside
this alphabet (e.g. one containing an unbalanced `(`) is conservatively
modelled as a compile failure, which `MustCompile` turns into a panic. -/
def patternOk (r : String) : Bool := r.toList.all isRefChar

/-- The substitution loop shared by `ResolveParametersInText` and
`ResolveParametersInFile`: for each map entry compile the per-reference
pattern (panicking on a bad key) and replace all of its matches with the
entry's value. -/
def substituteAll : RMap → String → GoOutcome String
  | [], text => GoOutcome.ret text
  | (ref, param) :: rest, text =>
    if patternOk ref then
      substituteAll rest
        (String.mk (replaceAll ref.toList param.Value.toList text.toList))
    else
      GoOutcome.panicked "regexp: Compile: error parsing regexp"

/-- The same substitution loop with the panic guard stripped; equal to
`substituteAll` whenever every key is admissible. -/
def substFold (entries : RMap) (t : List Char) : List Char :=
  entries.foldl (fun acc kv => replaceAll kv.1.toList kv.2.Value.toList acc) t

/-- Go function `ResolveParametersInText`: extract, then rewrite.  On an
error (or a nil or empty map) it returns the input text together with the
error, mirroring `return input, err`. -/
def ResolveParametersInText
    (service : List String → Except String RMap)
    (input : String) (options : ResolveOptions) :
    GoOutcome (String × Option String) × List (List String) :=
  match ExtractParametersFromText service input options with
  | (GoOutcome.fatal e, calls) => (GoOutcome.fatal e, calls)
  | (GoOutcome.panicked e, calls) => (GoOutcome.panicked e, calls)
  | (GoOutcome.ret (mOpt, errOpt), calls) =>
    match mOpt with
    | none => (GoOutcome.ret (input, errOpt), calls)
    | some resolvedParametersMap =>
      if errOpt.isSome ∨ resolvedParametersMap.length = 0 then
        (GoOutcome.ret (input, errOpt), calls)
      else
        match substituteAll resolvedParametersMap input with
        | GoOutcome.ret t => (GoOutcome.ret (t, none), calls)
        | GoOutcome.panicked e => (GoOutcome.panicked e, calls)
        | GoOutcome.fatal e => (GoOutcome.fatal e, calls)

/-- Result of a `ResolveParametersInFile` run: the Go return value (an
`error`, possibly nil), every write performed through the output shim as a
`(text, fileName)` pair, and every lookup-port call. -/
structure FileRunResult : Type where
  outcome : GoOutcome (Option String)
  writes : List (String × String)
  lookupCalls : List (List String)
deriving DecidableEq, Repr

/-- Go function `ResolveParametersInFile`.  The file shims
(`validateFileAndSize`, `readTextFromFile`, `writeToFile`) are repository
code outside `src/`, modelled from the spec's Text I/O Shim interface as
abstract parameters.  A write error hits `log.Fatal(err)` in the source
(`GoOutcome.fatal`); the `return err` after it is dead code. -/
def ResolveParametersInFile
    (service : List String → Except String RMap)
    (validateFileAndSize : String → Option String)
    (readTextFromFile : String → Except String String)
    (writeToFile : String → String → Option String)
    (inputFileName outputFileName : String) (options : ResolveOptions) :
    FileRunResult :=
  if inputFileName.length = 0 then
    ⟨GoOutcome.ret (some "input file name is not provided"), [], []⟩
  else if outputFileName.length = 0 then
    ⟨GoOutcome.ret (some "output file name is not provided"), [], []⟩
  else
    match validateFileAndSize inputFileName with
    | some errorInFileOrSize => ⟨GoOutcome.ret (some errorInFileOrSize), [], []⟩
    | none =>
      match readTextFromFile inputFileName with
      | Except.error e => ⟨GoOutcome.ret (some e), [], []⟩
      | Except.ok unresolvedText =>
        match ExtractParametersFromText service unresolvedText options with
        | (GoOutcome.fatal e, calls) => ⟨GoOutcome.fatal e, [], calls⟩
        | (GoOutcome.panicked e, calls) => ⟨GoOutcome.panicked e, [], calls⟩
        | (GoOutcome.ret (mOpt, errOpt), calls) =>
          match mOpt with
          | none => ⟨GoOutcome.ret errOpt, [], calls⟩
          | some resolvedParametersMap =>
            if errOpt.isSome ∨ resolvedParametersMap.length = 0 then
              ⟨GoOutcome.ret errOpt, [], calls⟩
            else
              match substituteAll resolvedParametersMap unresolvedText with
              | GoOutcome.panicked e => ⟨GoOutcome.panicked e, [], calls⟩
              | GoOutcome.fatal e => ⟨GoOutcome.fatal e, [], calls⟩
              | GoOutcome.ret t =>
                match writeToFile t outputFileName with
                | some e => ⟨GoOutcome.fatal e, [(t, outputFileName)], calls⟩
                | none => ⟨GoOutcome.ret none, [(t, outputFileName)], calls⟩

/-- Run of `n` spaces, for stating the optional-interior-whitespace laws. -/
def spaces (n : Nat) : List Char := List.replicate n ' '

/-- Store stub that always fails (an unreachable parameter store). -/
def svcErr : List String → Except String RMap := fun _ => Except.error "store unreachable"

/-- Parameter info `value "V", plain type`, used by concrete runs. -/
def infoV : SsmParameterInfo := ⟨"V", ParamType.plainString⟩

/-- Store stub resolving everything to the single plain entry `a ↦ V`. -/
def svcA : List String → Except String RMap := fun _ => Except.ok [("a", infoV)]

/-- Store stub returning a secure-typed entry under a plain key. -/
def svcSecure : List String → Except String RMap :=
  fun _ => Except.ok [("a", ⟨"V", ParamType.secureString⟩)]

/-- Store stub returning an entry whose key `a(` is not a compilable
pattern fragment. -/
def svcBadKey : List String → Except String RMap := fun _ => Except.ok [("a(", infoV)]

/-- Store stub returning the empty mapping. -/
def svcEmpty : List String → Except String RMap := fun _ => Except.ok []

/-- File-validation stub that accepts every path. -/
def vOk : String → Option String := fun _ => none

/-- Reader stub producing a one-placeholder document. -/
def rOk : String → Except String String := fun _ => Except.ok "\x7b\x7b a \x7d\x7d"

/-- Reader stub producing a placeholder-free document. -/
def rHello : String → Except String String := fun _ => Except.ok "hello"

/-- Writer stub that accepts every write. -/
def wOk : String → String → Option String := fun _ _ => none

/-- Writer stub that fails every write. -/
def wErr : String → String → Option String := fun _ _ => some "disk full"

lemma ws_not_refChar {c : Char} (h : isWsChar c = true) : isRefChar c = false := by
  simp only [isWsChar, Bool.or_eq_true, decide_eq_true_eq] at h
  rcases h with (((rfl | rfl) | rfl) | rfl) | rfl <;> decide

lemma refChar_not_ws {c : Char} (h : isRefChar c = true) : isWsChar c = false := by
  by_contra hw
  have hw2 : isWsChar c = true := by
    cases hww : isWsChar c
    · exact absurd hww hw
    · rfl
  rw [ws_not_refChar hw2] at h
  cases h

lemma ws_ne_rbrace {c : Char} (h : isWsChar c = true) : c ≠ '\x7d' := by
  simp only [isWsChar, Bool.or_eq_true, decide_eq_true_eq] at h
  rcases h with (((rfl | rfl) | rfl) | rfl) | rfl <;> decide

lemma refChar_ne_rbrace {c : Char} (h : isRefChar c = true) : c ≠ '\x7d' := by
  rintro rfl
  have : isRefChar '\x7d' = false := by decide
  rw [this] at h
  cases h

lemma dropWs_cons_ws {c : Char} (h : isWsChar c = true) (t : List Char) :
    dropWs (c :: t) = dropWs t := by
  simp [dropWs, h]

lemma dropWs_cons_not_ws {c : Char} (h : isWsChar c = false) (t : List Char) :
    dropWs (c :: t) = c :: t := by
  simp [dropWs, h]

lemma dropWs_append_ws {ws : List Char} (h : ∀ c ∈ ws, isWsChar c = true)
    (t : List Char) : dropWs (ws ++ t) = dropWs t := by
  induction ws with
  | nil => rfl
  | cons c cs ih =>
    rw [List.cons_append, dropWs_cons_ws (h c (List.mem_cons_self c cs))]
    exact ih (fun d hd => h d (List.mem_cons_of_mem c hd))

lemma dropWs_decomp (t : List Char) :
    ∃ ws, (∀ c ∈ ws, isWsChar c = true) ∧ t = ws ++ dropWs t := by
  induction t with
  | nil => exact ⟨[], by simp, rfl⟩
  | cons c cs ih =>
    cases h : isWsChar c with
    | true =>
      obtain ⟨ws, hws, heq⟩ := ih
      refine ⟨c :: ws, ?_, ?_⟩
      · intro d hd
        rcases List.mem_cons.mp hd with rfl | hd
        · exact h
        · exact hws d hd
      · rw [dropWs_cons_ws h, List.cons_append, ← heq]
    | false =>
      refine ⟨[], by simp, ?_⟩
      rw [dropWs_cons_not_ws h, List.nil_append]

lemma dropWs_length_le (t : List Char) : (dropWs t).length ≤ t.length := by
  induction t with
  | nil => exact Nat.le_refl _
  | cons c cs ih =>
    cases h : isWsChar c with
    | true =>
      rw [dropWs_cons_ws h]
      exact Nat.le_trans ih (Nat.le_succ _)
    | false =>
      rw [dropWs_cons_not_ws h]

/-! Prefix-lemma aliases (avoiding awkward qualified names). -/

lemma isPrefixOf_eq_true_iff {l1 l2 : List Char} : l1.isPrefixOf l2 = true ↔ l1 <+: l2 :=
  List.isPrefixOf_iff_prefix

lemma prefix_cases {l1 l2 l3 : List Char} (h1 : l1 <+: l3) (h2 : l2 <+: l3) :
    l1 <+: l2 ∨ l2 <+: l1 :=
  List.prefix_or_prefix_of_prefix h1 h2

lemma prefixAppend (l1 l2 : List Char) : l1 <+: l1 ++ l2 :=
  List.prefix_append l1 l2



/-! Facts about `closeBraces`. -/

lemma closeBraces_sound {x u : List Char} (h : closeBraces x = some u) :
    x = '\x7d' :: '\x7d' :: u := by
  rcases x with _ | ⟨d1, _ | ⟨d2, u0⟩⟩
  · simp [closeBraces] at h
  · simp [closeBraces] at h
  · simp only [closeBraces] at h
    split at h
    case isFalse => cases h
    case isTrue hd =>
      obtain ⟨rfl, rfl⟩ := hd
      obtain rfl : u0 = u := by cases h; rfl
      rfl

lemma closeBraces_complete (u : List Char) :
    closeBraces ('\x7d' :: '\x7d' :: u) = some u := by
  simp [closeBraces]

/-! Soundness and completeness of `matchPH`. -/

lemma matchPH_sound {r t u : List Char} (h : matchPH r t = some u) :
    ∃ ws1 ws2, (∀ c ∈ ws1, isWsChar c = true) ∧ (∀ c ∈ ws2, isWsChar c = true) ∧
      t = '\x7b' :: '\x7b' :: (ws1 ++ r ++ ws2 ++ '\x7d' :: '\x7d' :: u) := by
  rcases t with _ | ⟨c1, _ | ⟨c2, rest⟩⟩
  · simp [matchPH] at h
  · simp [matchPH] at h
  · simp only [matchPH] at h
    split at h
    case isFalse => cases h
    case isTrue hbr =>
      obtain ⟨rfl, rfl⟩ := hbr
      split at h
      case isFalse => cases h
      case isTrue hp =>
        obtain ⟨ws1, hws1, hdec1⟩ := dropWs_decomp rest
        obtain ⟨s, hs⟩ := isPrefixOf_eq_true_iff.mp hp
        have hdrop : (dropWs rest).drop r.length = s := by
          rw [← hs, List.drop_left]
        rw [hdrop] at h
        obtain ⟨ws2, hws2, hdec2⟩ := dropWs_decomp s
        have hcb := closeBraces_sound h
        rw [hcb] at hdec2
        refine ⟨ws1, ws2, hws1, hws2, ?_⟩
        have : rest = ws1 ++ (r ++ (ws2 ++ '\x7d' :: '\x7d' :: u)) := by
          rw [hdec1, ← hs, hdec2]
        rw [this]
        simp [List.append_assoc]

lemma matchPH_complete {r ws1 ws2 : List Char} (u : List Char)
    (hr : r ≠ []) (hrc : ∀ c ∈ r, isRefChar c = true)
    (h1 : ∀ c ∈ ws1, isWsChar c = true) (h2 : ∀ c ∈ ws2, isWsChar c = true) :
    matchPH r ('\x7b' :: '\x7b' :: (ws1 ++ r ++ ws2 ++ '\x7d' :: '\x7d' :: u)) = some u := by
  rcases r with _ | ⟨rc, r1⟩
  · exact absurd rfl hr
  have hnw : isWsChar rc = false := refChar_not_ws (hrc rc (List.mem_cons_self rc r1))
  have hstep : dropWs (ws1 ++ (rc :: r1) ++ ws2 ++ '\x7d' :: '\x7d' :: u)
      = (rc :: r1) ++ (ws2 ++ '\x7d' :: '\x7d' :: u) := by
    have hassoc : ws1 ++ (rc :: r1) ++ ws2 ++ '\x7d' :: '\x7d' :: u
        = ws1 ++ ((rc :: r1) ++ (ws2 ++ '\x7d' :: '\x7d' :: u)) := by
      simp [List.append_assoc]
    rw [hassoc, dropWs_append_ws h1, List.cons_append, dropWs_cons_not_ws hnw]
  simp only [matchPH]
  rw [if_pos ⟨trivial, trivial⟩, hstep]
  have hpre : (rc :: r1).isPrefixOf ((rc :: r1) ++ (ws2 ++ '\x7d' :: '\x7d' :: u)) = true :=
    isPrefixOf_eq_true_iff.mpr (prefixAppend _ _)
  rw [if_pos hpre, List.drop_left, dropWs_append_ws h2, dropWs_cons_not_ws (by decide)]
  exact closeBraces_complete u

lemma matchPH_length {r t u : List Char} (h : matchPH r t = some u) :
    u.length < t.length := by
  obtain ⟨ws1, ws2, _, _, ht⟩ := matchPH_sound h
  rw [ht]
  simp [List.length_append]
  omega

lemma drop_takeWhile_length (p : Char → Bool) (l : List Char) :
    l.drop (l.takeWhile p).length = l.dropWhile p := by
  induction l with
  | nil => rfl
  | cons c cs ih =>
    cases h : p c
    · simp [List.takeWhile_cons, List.dropWhile_cons, h]
    · simp [List.takeWhile_cons, List.dropWhile_cons, h, ih]

lemma takeWhile_append_of_all {p : Char → Bool} {xs : List Char}
    (h : ∀ c ∈ xs, p c = true) (ys : List Char) :
    (xs ++ ys).takeWhile p = xs ++ ys.takeWhile p := by
  induction xs with
  | nil => rfl
  | cons c cs ih =>
    rw [List.cons_append]
    simp [List.takeWhile_cons, h c (List.mem_cons_self c cs),
      ih (fun d hd => h d (List.mem_cons_of_mem c hd))]

lemma takeWhile_nil_of_head {p : Char → Bool} {y : Char} (h : p y = false)
    (ys : List Char) : (y :: ys).takeWhile p = [] := by
  simp [List.takeWhile_cons, h]

lemma takeWhile_ref_exact {r ws2 : List Char} (u : List Char)
    (hrc : ∀ c ∈ r, isRefChar c = true) (h2 : ∀ c ∈ ws2, isWsChar c = true) :
    (r ++ (ws2 ++ '\x7d' :: '\x7d' :: u)).takeWhile isRefChar = r := by
  induction r with
  | nil =>
    rcases ws2 with _ | ⟨w, ws2t⟩
    · rw [List.nil_append, List.nil_append]
      exact takeWhile_nil_of_head (by decide) _
    · rw [List.nil_append, List.cons_append]
      exact takeWhile_nil_of_head (ws_not_refChar (h2 w (List.mem_cons_self w ws2t))) _
  | cons c cs ih =>
    rw [List.cons_append]
    simp [List.takeWhile_cons, hrc c (List.mem_cons_self c cs),
      ih (fun d hd => hrc d (List.mem_cons_of_mem c hd))]

/-! Soundness and completeness of `matchCapture`. -/

lemma matchCapture_sound {t : List Char} {r u : List Char}
    (h : matchCapture t = some (r, u)) :
    r ≠ [] ∧ (∀ c ∈ r, isRefChar c = true) ∧
    ∃ ws1 ws2, (∀ c ∈ ws1, isWsChar c = true) ∧ (∀ c ∈ ws2, isWsChar c = true) ∧
      t = '\x7b' :: '\x7b' :: (ws1 ++ r ++ ws2 ++ '\x7d' :: '\x7d' :: u) := by
  rcases t with _ | ⟨c1, _ | ⟨c2, rest⟩⟩
  · simp [matchCapture] at h
  · simp [matchCapture] at h
  · simp only [matchCapture] at h
    split at h
    case isFalse => cases h
    case isTrue hbr =>
      obtain ⟨rfl, rfl⟩ := hbr
      split at h
      case isTrue => cases h
      case isFalse hne =>
        rw [drop_takeWhile_length] at h
        rcases hcb : closeBraces (dropWs ((dropWs rest).dropWhile isRefChar)) with _ | u0
        · rw [hcb] at h; cases h
        · rw [hcb] at h
          have h2 : ((dropWs rest).takeWhile isRefChar, u0) = (r, u) := Option.some.inj h
          have htr : (dropWs rest).takeWhile isRefChar = r := congrArg Prod.fst h2
          have hu : u0 = u := congrArg Prod.snd h2
          obtain ⟨ws1, hws1, hdec1⟩ := dropWs_decomp rest
          obtain ⟨ws2, hws2, hdec2⟩ := dropWs_decomp ((dropWs rest).dropWhile isRefChar)
          have hcb2 := closeBraces_sound hcb
          rw [hcb2, hu] at hdec2
          refine ⟨by rw [← htr]; exact hne, ?_, ws1, ws2, hws1, hws2, ?_⟩
          · intro c hc
            rw [← htr] at hc
            exact List.mem_takeWhile_imp hc
          · have hrest : rest = ws1 ++ (r ++ (ws2 ++ '\x7d' :: '\x7d' :: u)) := by
              rw [hdec1]
              congr 1
              conv_lhs => rw [← List.takeWhile_append_dropWhile isRefChar (dropWs rest)]
              rw [htr, hdec2]
            rw [hrest]
            simp [List.append_assoc]

lemma matchCapture_complete {r ws1 ws2 : List Char} (u : List Char)
    (hr : r ≠ []) (hrc : ∀ c ∈ r, isRefChar c = true)
    (h1 : ∀ c ∈ ws1, isWsChar c = true) (h2 : ∀ c ∈ ws2, isWsChar c = true) :
    matchCapture ('\x7b' :: '\x7b' :: (ws1 ++ r ++ ws2 ++ '\x7d' :: '\x7d' :: u))
      = some (r, u) := by
  rcases r with _ | ⟨rc, r1⟩
  · exact absurd rfl hr
  have hnw : isWsChar rc = false := refChar_not_ws (hrc rc (List.mem_cons_self rc r1))
  have hstep : dropWs (ws1 ++ (rc :: r1) ++ ws2 ++ '\x7d' :: '\x7d' :: u)
      = (rc :: r1) ++ (ws2 ++ '\x7d' :: '\x7d' :: u) := by
    have hassoc : ws1 ++ (rc :: r1) ++ ws2 ++ '\x7d' :: '\x7d' :: u
        = ws1 ++ ((rc :: r1) ++ (ws2 ++ '\x7d' :: '\x7d' :: u)) := by
      simp [List.append_assoc]
    rw [hassoc, dropWs_append_ws h1, List.cons_append, dropWs_cons_not_ws hnw]
  have htake : ((rc :: r1) ++ (ws2 ++ '\x7d' :: '\x7d' :: u)).takeWhile isRefChar
      = rc :: r1 := takeWhile_ref_exact u hrc h2
  simp only [matchCapture]
  rw [if_pos ⟨trivial, trivial⟩, hstep, htake]
  rw [if_neg (by simp)]
  rw [List.drop_left, dropWs_append_ws h2, dropWs_cons_not_ws (by decide),
    closeBraces_complete]
  rfl

lemma matchCapture_length {t : List Char} {r u : List Char}
    (h : matchCapture t = some (r, u)) : u.length < t.length := by
  obtain ⟨_, _, ws1, ws2, _, _, ht⟩ := matchCapture_sound h
  rw [ht]
  simp [List.length_append]
  omega

/-! Step equations for the fuelled scanners. -/

lemma findAllRefsF_nil (fuel : Nat) : findAllRefsF fuel [] = [] := by
  cases fuel <;> rfl

lemma findAllRefsF_cons_some {c : Char} {cs r u : List Char} (fuel : Nat)
    (h : matchCapture (c :: cs) = some (r, u)) :
    findAllRefsF (fuel + 1) (c :: cs) = String.mk r :: findAllRefsF fuel u := by
  have h1 : findAllRefsF (fuel + 1) (c :: cs) =
      match matchCapture (c :: cs) with
      | some (r, u) => String.mk r :: findAllRefsF fuel u
      | none => findAllRefsF fuel cs := rfl
  rw [h] at h1
  exact h1

lemma findAllRefsF_cons_none {c : Char} {cs : List Char} (fuel : Nat)
    (h : matchCapture (c :: cs) = none) :
    findAllRefsF (fuel + 1) (c :: cs) = findAllRefsF fuel cs := by
  have h1 : findAllRefsF (fuel + 1) (c :: cs) =
      match matchCapture (c :: cs) with
      | some (r, u) => String.mk r :: findAllRefsF fuel u
      | none => findAllRefsF fuel cs := rfl
  rw [h] at h1
  exact h1

lemma findAllRefsF_congr :
    ∀ fuel fuel2 (t : List Char), t.length ≤ fuel → t.length ≤ fuel2 →
      findAllRefsF fuel t = findAllRefsF fuel2 t := by
  intro fuel
  induction fuel with
  | zero =>
    intro fuel2 t ht _
    have : t = [] := List.length_eq_zero.mp (Nat.le_zero.mp ht)
    subst this
    rw [findAllRefsF_nil, findAllRefsF_nil]
  | succ f ih =>
    intro fuel2 t ht ht2
    rcases t with _ | ⟨c, cs⟩
    · rw [findAllRefsF_nil, findAllRefsF_nil]
    · rcases fuel2 with _ | f2
      · exact absurd ht2 (by simp)
      · have htc : cs.length ≤ f := by simp at ht; omega
        have htc2 : cs.length ≤ f2 := by simp at ht2; omega
        rcases hm : matchCapture (c :: cs) with _ | ⟨r, u⟩
        · rw [findAllRefsF_cons_none f hm, findAllRefsF_cons_none f2 hm]
          exact ih f2 cs htc htc2
        · have hu : u.length ≤ cs.length := by
            have := matchCapture_length hm
            simp at this
            omega
          rw [findAllRefsF_cons_some f hm, findAllRefsF_cons_some f2 hm,
            ih f2 u (Nat.le_trans hu htc) (Nat.le_trans hu htc2)]

lemma findAllRefs_nil : findAllRefs [] = [] := rfl

lemma findAllRefs_cons_some {c : Char} {cs r u : List Char}
    (h : matchCapture (c :: cs) = some (r, u)) :
    findAllRefs (c :: cs) = String.mk r :: findAllRefs u := by
  have hu : u.length ≤ cs.length := by
    have := matchCapture_length h
    simp at this
    omega
  show findAllRefsF (c :: cs).length (c :: cs) = _
  rw [List.length_cons, findAllRefsF_cons_some cs.length h,
    findAllRefsF_congr cs.length u.length u hu (Nat.le_refl _)]
  rfl

lemma findAllRefs_cons_none {c : Char} {cs : List Char}
    (h : matchCapture (c :: cs) = none) :
    findAllRefs (c :: cs) = findAllRefs cs := by
  show findAllRefsF (c :: cs).length (c :: cs) = _
  rw [List.length_cons, findAllRefsF_cons_none cs.length h]
  rfl

lemma replaceAllF_nil (r v : List Char) (fuel : Nat) : replaceAllF r v fuel [] = [] := by
  cases fuel <;> rfl

lemma replaceAllF_cons_some {r v : List Char} {c : Char} {cs u : List Char} (fuel : Nat)
    (h : matchPH r (c :: cs) = some u) :
    replaceAllF r v (fuel + 1) (c :: cs)
      = expandTemplate ((c :: cs).take ((c :: cs).length - u.length)) v
          ++ replaceAllF r v fuel u := by
  have h1 : replaceAllF r v (fuel + 1) (c :: cs) =
      match matchPH r (c :: cs) with
      | some u =>
        expandTemplate ((c :: cs).take ((c :: cs).length - u.length)) v
          ++ replaceAllF r v fuel u
      | none => c :: replaceAllF r v fuel cs := rfl
  rw [h] at h1
  exact h1

lemma replaceAllF_cons_none {r v : List Char} {c : Char} {cs : List Char} (fuel : Nat)
    (h : matchPH r (c :: cs) = none) :
    replaceAllF r v (fuel + 1) (c :: cs) = c :: replaceAllF r v fuel cs := by
  have h1 : replaceAllF r v (fuel + 1) (c :: cs) =
      match matchPH r (c :: cs) with
      | some u =>
        expandTemplate ((c :: cs).take ((c :: cs).length - u.length)) v
          ++ replaceAllF r v fuel u
      | none => c :: replaceAllF r v fuel cs := rfl
  rw [h] at h1
  exact h1

lemma replaceAllF_congr (r v : List Char) :
    ∀ fuel fuel2 (t : List Char), t.length ≤ fuel → t.length ≤ fuel2 →
      replaceAllF r v fuel t = replaceAllF r v fuel2 t := by
  intro fuel
  induction fuel with
  | zero =>
    intro fuel2 t ht _
    have : t = [] := List.length_eq_zero.mp (Nat.le_zero.mp ht)
    subst this
    rw [replaceAllF_nil, replaceAllF_nil]
  | succ f ih =>
    intro fuel2 t ht ht2
    rcases t with _ | ⟨c, cs⟩
    · rw [replaceAllF_nil, replaceAllF_nil]
    · rcases fuel2 with _ | f2
      · exact absurd ht2 (by simp)
      · have htc : cs.length ≤ f := by simp at ht; omega
        have htc2 : cs.length ≤ f2 := by simp at ht2; omega
        rcases hm : matchPH r (c :: cs) with _ | u
        · rw [replaceAllF_cons_none f hm, replaceAllF_cons_none f2 hm]
          rw [ih f2 cs htc htc2]
        · have hu : u.length ≤ cs.length := by
            have := matchPH_length hm
            simp at this
            omega
          rw [replaceAllF_cons_some f hm, replaceAllF_cons_some f2 hm,
            ih f2 u (Nat.le_trans hu htc) (Nat.le_trans hu htc2)]

lemma replaceAll_cons_some {r v : List Char} {c : Char} {cs u : List Char}
    (h : matchPH r (c :: cs) = some u) :
    replaceAll r v (c :: cs)
      = expandTemplate ((c :: cs).take ((c :: cs).length - u.length)) v
          ++ replaceAll r v u := by
  have hu : u.length ≤ cs.length := by
    have := matchPH_length h
    simp at this
    omega
  show replaceAllF r v (c :: cs).length (c :: cs) = _
  rw [List.length_cons, replaceAllF_cons_some cs.length h,
    replaceAllF_congr r v cs.length u.length u hu (Nat.le_refl _)]
  rfl

lemma replaceAll_cons_none {r v : List Char} {c : Char} {cs : List Char}
    (h : matchPH r (c :: cs) = none) :
    replaceAll r v (c :: cs) = c :: replaceAll r v cs := by
  show replaceAllF r v (c :: cs).length (c :: cs) = _
  rw [List.length_cons, replaceAllF_cons_none cs.length h]
  rfl

/-! Facts about the replacement-template expansion. -/

lemma take_append_left_len (l1 l2 : List Char) :
    (l1 ++ l2).take ((l1 ++ l2).length - l2.length) = l1 := by
  rw [List.length_append, Nat.add_sub_cancel, List.take_left]

lemma expandTemplateF_step_plain (matched : List Char) (fuel : Nat) {c : Char}
    (hc : ¬c = '$') (cs : List Char) :
    expandTemplateF matched (fuel + 1) (c :: cs) = c :: expandTemplateF matched fuel cs := by
  have h1 : expandTemplateF matched (fuel + 1) (c :: cs)
      = if c = '$' then
          match cs with
          | [] => ['$']
          | c2 :: cs2 =>
            if c2 = '$' then '$' :: expandTemplateF matched fuel cs2
            else
              match extractName (c2 :: cs2) with
              | some (name, rest) =>
                (if name = ['0'] then matched else []) ++ expandTemplateF matched fuel rest
              | none => '$' :: expandTemplateF matched fuel (c2 :: cs2)
        else c :: expandTemplateF matched fuel cs := rfl
  rw [h1, if_neg hc]

lemma expandTemplateF_no_dollar (matched : List Char) :
    ∀ fuel (v : List Char), v.length ≤ fuel → (∀ c ∈ v, ¬c = '$') →
      expandTemplateF matched fuel v = v := by
  intro fuel
  induction fuel with
  | zero => intro v _ _; rfl
  | succ f ih =>
    intro v hv hnd
    rcases v with _ | ⟨c, cs⟩
    · rfl
    · have hc : ¬c = '$' := hnd c (List.mem_cons_self c cs)
      rw [expandTemplateF_step_plain matched f hc cs,
        ih cs (by simp at hv; omega) (fun d hd => hnd d (List.mem_cons_of_mem c hd))]

lemma expandTemplate_no_dollar {v : List Char} (matched : List Char)
    (h : ∀ c ∈ v, ¬c = '$') : expandTemplate matched v = v :=
  expandTemplateF_no_dollar matched v.length v (Nat.le_refl _) h

lemma replaceAll_span_step {r v ws1 ws2 : List Char} (u : List Char)
    (hr : r ≠ []) (hrc : ∀ c ∈ r, isRefChar c = true)
    (h1 : ∀ c ∈ ws1, isWsChar c = true) (h2 : ∀ c ∈ ws2, isWsChar c = true) :
    replaceAll r v ('\x7b' :: '\x7b' :: (ws1 ++ r ++ ws2 ++ '\x7d' :: '\x7d' :: u))
      = expandTemplate ('\x7b' :: '\x7b' :: (ws1 ++ r ++ ws2 ++ ['\x7d', '\x7d'])) v
          ++ replaceAll r v u := by
  rw [replaceAll_cons_some (matchPH_complete u hr hrc h1 h2)]
  congr 2
  have hshape : '\x7b' :: '\x7b' :: (ws1 ++ r ++ ws2 ++ '\x7d' :: '\x7d' :: u)
      = ('\x7b' :: '\x7b' :: (ws1 ++ r ++ ws2 ++ ['\x7d', '\x7d'])) ++ u := by
    simp [List.append_assoc]
  rw [hshape, take_append_left_len]

/-! Non-matching chunks pass through the scanners untouched. -/

lemma matchPH_none_not_lbrace {r : List Char} {c : Char} (h : c ≠ '\x7b')
    (cs : List Char) : matchPH r (c :: cs) = none := by
  rcases cs with _ | ⟨c2, rest⟩
  · rfl
  · simp only [matchPH]
    rw [if_neg]
    intro hand
    exact h hand.1

lemma matchCapture_none_not_lbrace {c : Char} (h : c ≠ '\x7b')
    (cs : List Char) : matchCapture (c :: cs) = none := by
  rcases cs with _ | ⟨c2, rest⟩
  · rfl
  · simp only [matchCapture]
    rw [if_neg]
    intro hand
    exact h hand.1

lemma matchCapture_none_second {c1 c2 : Char} (h : c2 ≠ '\x7b')
    (cs : List Char) : matchCapture (c1 :: c2 :: cs) = none := by
  simp only [matchCapture]
  rw [if_neg]
  intro hand
  exact h hand.2

lemma replaceAll_append_nolb {r v a : List Char} (h : ∀ c ∈ a, c ≠ '\x7b')
    (t : List Char) : replaceAll r v (a ++ t) = a ++ replaceAll r v t := by
  induction a with
  | nil => rfl
  | cons c a1 ih =>
    rw [List.cons_append,
      replaceAll_cons_none (matchPH_none_not_lbrace (h c (List.mem_cons_self c a1)) _),
      ih (fun d hd => h d (List.mem_cons_of_mem c hd)), List.cons_append]

lemma findAllRefs_append_nolb {a : List Char} (h : ∀ c ∈ a, c ≠ '\x7b')
    (t : List Char) : findAllRefs (a ++ t) = findAllRefs t := by
  induction a with
  | nil => rfl
  | cons c a1 ih =>
    rw [List.cons_append,
      findAllRefs_cons_none (matchCapture_none_not_lbrace (h c (List.mem_cons_self c a1)) _),
      ih (fun d hd => h d (List.mem_cons_of_mem c hd))]

/-! Facts about `dedupFirst`. -/

lemma mem_foldl_dedup (l : List String) :
    ∀ acc x, x ∈ l.foldl (fun acc e => if e ∈ acc then acc else acc ++ [e]) acc ↔
      x ∈ acc ∨ x ∈ l := by
  induction l with
  | nil => simp
  | cons e l ih =>
    intro acc x
    simp only [List.foldl_cons]
    by_cases he : e ∈ acc
    · rw [if_pos he, ih]
      constructor
      · rintro (hx | hx)
        · exact Or.inl hx
        · exact Or.inr (List.mem_cons_of_mem e hx)
      · rintro (hx | hx)
        · exact Or.inl hx
        · rcases List.mem_cons.mp hx with rfl | hx
          · exact Or.inl he
          · exact Or.inr hx
    · rw [if_neg he, ih]
      constructor
      · rintro (hx | hx)
        · rcases List.mem_append.mp hx with hx | hx
          · exact Or.inl hx
          · simp at hx
            exact Or.inr (by simp [hx])
        · exact Or.inr (List.mem_cons_of_mem e hx)
      · rintro (hx | hx)
        · exact Or.inl (List.mem_append.mpr (Or.inl hx))
        · rcases List.mem_cons.mp hx with rfl | hx
          · exact Or.inl (by simp)
          · exact Or.inr hx

lemma nodup_foldl_dedup (l : List String) :
    ∀ acc, acc.Nodup →
      (l.foldl (fun acc e => if e ∈ acc then acc else acc ++ [e]) acc).Nodup := by
  induction l with
  | nil => intro acc h; simpa using h
  | cons e l ih =>
    intro acc h
    simp only [List.foldl_cons]
    by_cases he : e ∈ acc
    · rw [if_pos he]; exact ih acc h
    · rw [if_neg he]
      exact ih (acc ++ [e]) (by simp [List.nodup_append, h, he])

lemma mem_dedupFirst {x : String} {l : List String} : x ∈ dedupFirst l ↔ x ∈ l := by
  rw [dedupFirst, mem_foldl_dedup]
  simp

lemma dedupFirst_nodup (l : List String) : (dedupFirst l).Nodup :=
  nodup_foldl_dedup l [] List.nodup_nil

/-! Distinct references never match the same placeholder span. -/

lemma matchPH_span_ne {r1 r2 ws1 ws2 : List Char} (u : List Char)
    (h1 : r1 ≠ []) (hc1 : ∀ c ∈ r1, isRefChar c = true)
    (hc2 : ∀ c ∈ r2, isRefChar c = true)
    (hne : r1 ≠ r2)
    (hw1 : ∀ c ∈ ws1, isWsChar c = true) (hw2 : ∀ c ∈ ws2, isWsChar c = true) :
    matchPH r2 ('\x7b' :: '\x7b' :: (ws1 ++ r1 ++ ws2 ++ '\x7d' :: '\x7d' :: u)) = none := by
  rcases r1 with _ | ⟨rc, r1t⟩
  · exact absurd rfl h1
  have hnw : isWsChar rc = false := refChar_not_ws (hc1 rc (List.mem_cons_self rc r1t))
  have hstep : dropWs (ws1 ++ (rc :: r1t) ++ ws2 ++ '\x7d' :: '\x7d' :: u)
      = (rc :: r1t) ++ (ws2 ++ '\x7d' :: '\x7d' :: u) := by
    have hassoc : ws1 ++ (rc :: r1t) ++ ws2 ++ '\x7d' :: '\x7d' :: u
        = ws1 ++ ((rc :: r1t) ++ (ws2 ++ '\x7d' :: '\x7d' :: u)) := by
      simp [List.append_assoc]
    rw [hassoc, dropWs_append_ws hw1, List.cons_append, dropWs_cons_not_ws hnw]
  simp only [matchPH]
  rw [if_pos ⟨trivial, trivial⟩, hstep]
  by_cases hp : r2.isPrefixOf ((rc :: r1t) ++ (ws2 ++ '\x7d' :: '\x7d' :: u)) = true
  case neg => rw [if_neg hp]
  case pos =>
    rw [if_pos hp]
    have hpre2 : r2 <+: (rc :: r1t) ++ (ws2 ++ '\x7d' :: '\x7d' :: u) :=
      isPrefixOf_eq_true_iff.mp hp
    have hpre1 : (rc :: r1t) <+: (rc :: r1t) ++ (ws2 ++ '\x7d' :: '\x7d' :: u) :=
      prefixAppend _ _
    rcases prefix_cases hpre1 hpre2 with h12 | h21
    · obtain ⟨d, hd⟩ := h12
      rcases d with _ | ⟨dc, dt⟩
      · rw [List.append_nil] at hd
        exact absurd hd hne
      · exfalso
        have hdc : isRefChar dc = true := hc2 dc (by rw [← hd]; simp)
        obtain ⟨s, hs⟩ := hpre2
        rw [← hd, List.append_assoc] at hs
        have hxs : (dc :: dt) ++ s = ws2 ++ '\x7d' :: '\x7d' :: u :=
          List.append_cancel_left hs
        rcases ws2 with _ | ⟨w, wt⟩
        · rw [List.nil_append] at hxs
          have hdcr : dc = '\x7d' := by
            have := congrArg List.head? hxs
            simpa using this
          rw [hdcr] at hdc
          exact absurd hdc (by decide)
        · have hdcw : dc = w := by
            have := congrArg List.head? hxs
            simpa using this
          rw [hdcw, ws_not_refChar (hw2 w (List.mem_cons_self w wt))] at hdc
          cases hdc
    · obtain ⟨d, hd⟩ := h21
      rcases d with _ | ⟨dc, dt⟩
      · rw [List.append_nil] at hd
        exact absurd hd.symm hne
      · have hdecomp : (rc :: r1t) ++ (ws2 ++ '\x7d' :: '\x7d' :: u)
            = r2 ++ ((dc :: dt) ++ (ws2 ++ '\x7d' :: '\x7d' :: u)) := by
          rw [← hd]
          simp [List.append_assoc]
        rw [hdecomp, List.drop_left]
        have hdc : isRefChar dc = true := hc1 dc (by rw [← hd]; simp)
        rw [List.cons_append, dropWs_cons_not_ws (refChar_not_ws hdc)]
        rcases hdt : dt ++ (ws2 ++ '\x7d' :: '\x7d' :: u) with _ | ⟨e, es⟩
        · exfalso
          have := congrArg List.length hdt
          simp at this
        · simp only [closeBraces]
          rw [if_neg]
          intro hand
          exact absurd hdc (by rw [hand.1]; decide)

lemma matchPH_none_of_other {r1 r2 t u : List Char}
    (h : matchPH r1 t = some u)
    (h1 : r1 ≠ []) (hc1 : ∀ c ∈ r1, isRefChar c = true)
    (hc2 : ∀ c ∈ r2, isRefChar c = true) (hne : r1 ≠ r2) :
    matchPH r2 t = none := by
  obtain ⟨ws1, ws2, hw1, hw2, heq⟩ := matchPH_sound h
  rw [heq]
  exact matchPH_span_ne u h1 hc1 hc2 hne hw1 hw2

/-! Scanning a foreign placeholder span leaves it untouched. -/

lemma substituteAll_eq_fold :
    ∀ (entries : RMap) (text : String), (∀ kv ∈ entries, patternOk kv.1 = true) →
      substituteAll entries text = GoOutcome.ret (String.mk (substFold entries text.toList)) := by
  intro entries
  induction entries with
  | nil => intro text _; rfl
  | cons kv rest ih =>
    intro text hpat
    rcases kv with ⟨ref, param⟩
    have hp : patternOk ref = true := hpat (ref, param) (List.mem_cons_self _ _)
    have hstep : substituteAll ((ref, param) :: rest) text
        = substituteAll rest (String.mk (replaceAll ref.toList param.Value.toList text.toList)) := by
      simp only [substituteAll]
      rw [if_pos hp]
    rw [hstep, ih _ (fun kv2 h2 => hpat kv2 (List.mem_cons_of_mem _ h2))]
    rfl

/-! Unfolding equations for the top-level operations. -/

lemma ExtractParametersFromText_def (service : List String → Except String RMap)
    (input : String) (options : ResolveOptions) :
    ExtractParametersFromText service input options =
      match parseParametersFromTextIntoMap input options with
      | Except.error e => (GoOutcome.ret (none, some e), [])
      | Except.ok uniqueParameterReferences =>
        match getParametersFromSsmParameterStore service uniqueParameterReferences with
        | Except.error e => (GoOutcome.fatal e, [uniqueParameterReferences])
        | Except.ok parametersWithValues =>
          if options.ResolveSecureParameters = false then
            if 0 < (parametersWithValues.filter isSecureEntry).length then
              (GoOutcome.ret (none, some "resolving secure parameters is not allowed"),
                [uniqueParameterReferences])
            else
              (GoOutcome.ret (some parametersWithValues, none), [uniqueParameterReferences])
          else
            (GoOutcome.ret (some parametersWithValues, none), [uniqueParameterReferences]) := rfl

lemma ResolveParameterReferenceList_def (service : List String → Except String RMap)
    (parameterReferences : List String) (options : ResolveOptions) :
    ResolveParameterReferenceList service parameterReferences options =
      match getParametersFromSsmParameterStore service (dedupSlice parameterReferences) with
      | Except.error e => (GoOutcome.fatal e, [dedupSlice parameterReferences])
      | Except.ok parametersWithValues =>
        if options.ResolveSecureParameters = false then
          if 0 < (parametersWithValues.filter isSecureEntry).length then
            (GoOutcome.ret (none, some "resolving secure parameters is not allowed"),
              [dedupSlice parameterReferences])
          else
            (GoOutcome.ret (some parametersWithValues, none), [dedupSlice parameterReferences])
        else
          (GoOutcome.ret (some parametersWithValues, none), [dedupSlice parameterReferences])
      := rfl

lemma ResolveParametersInText_def (service : List String → Except String RMap)
    (input : String) (options : ResolveOptions) :
    ResolveParametersInText service input options =
      match ExtractParametersFromText service input options with
      | (GoOutcome.fatal e, calls) => (GoOutcome.fatal e, calls)
      | (GoOutcome.panicked e, calls) => (GoOutcome.panicked e, calls)
      | (GoOutcome.ret (mOpt, errOpt), calls) =>
        match mOpt with
        | none => (GoOutcome.ret (input, errOpt), calls)
        | some resolvedParametersMap =>
          if errOpt.isSome ∨ resolvedParametersMap.length = 0 then
            (GoOutcome.ret (input, errOpt), calls)
          else
            match substituteAll resolvedParametersMap input with
            | GoOutcome.ret t => (GoOutcome.ret (t, none), calls)
            | GoOutcome.panicked e => (GoOutcome.panicked e, calls)
            | GoOutcome.fatal e => (GoOutcome.fatal e, calls) := rfl

lemma ResolveParametersInFile_def (service : List String → Except String RMap)
    (validateFileAndSize : String → Option String)
    (readTextFromFile : String → Except String String)
    (writeToFile : String → String → Option String)
    (inputFileName outputFileName : String) (options : ResolveOptions) :
    ResolveParametersInFile service validateFileAndSize readTextFromFile writeToFile
        inputFileName outputFileName options =
      if inputFileName.length = 0 then
        ⟨GoOutcome.ret (some "input file name is not provided"), [], []⟩
      else if outputFileName.length = 0 then
        ⟨GoOutcome.ret (some "output file name is not provided"), [], []⟩
      else
        match validateFileAndSize inputFileName with
        | some errorInFileOrSize => ⟨GoOutcome.ret (some errorInFileOrSize), [], []⟩
        | none =>
          match readTextFromFile inputFileName with
          | Except.error e => ⟨GoOutcome.ret (some e), [], []⟩
          | Except.ok unresolvedText =>
            match ExtractParametersFromText service unresolvedText options with
            | (GoOutcome.fatal e, calls) => ⟨GoOutcome.fatal e, [], calls⟩
            | (GoOutcome.panicked e, calls) => ⟨GoOutcome.panicked e, [], calls⟩
            | (GoOutcome.ret (mOpt, errOpt), calls) =>
              match mOpt with
              | none => ⟨GoOutcome.ret errOpt, [], calls⟩
              | some resolvedParametersMap =>
                if errOpt.isSome ∨ resolvedParametersMap.length = 0 then
                  ⟨GoOutcome.ret errOpt, [], calls⟩
                else
                  match substituteAll resolvedParametersMap unresolvedText with
                  | GoOutcome.panicked e => ⟨GoOutcome.panicked e, [], calls⟩
                  | GoOutcome.fatal e => ⟨GoOutcome.fatal e, [], calls⟩
                  | GoOutcome.ret t =>
                    match writeToFile t outputFileName with
                    | some e => ⟨GoOutcome.fatal e, [(t, outputFileName)], calls⟩
                    | none => ⟨GoOutcome.ret none, [(t, outputFileName)], calls⟩ := rfl

/-- C7: for every input text containing no placeholders and every
ResolveOptions, `ExtractParametersFromText` returns an empty resolution map
with no error, and `ResolveParametersInText` returns the input text
unchanged with no error. -/
theorem C7_no_placeholders (service : List String → Except String RMap)
    (input : String) (options : ResolveOptions)
    (h : findAllRefs input.toList = []) :
    ExtractParametersFromText service input options
      = (GoOutcome.ret (some [], none), [[]]) ∧
    ResolveParametersInText service input options
      = (GoOutcome.ret (input, none), [[]]) := by
  have hplain : plainRefs input = [] := by rw [plainRefs, h]; rfl
  have hsec : secureRefs input = [] := by rw [secureRefs, h]; rfl
  have hparse : parseParametersFromTextIntoMap input options = Except.ok [] := by
    simp only [parseParametersFromTextIntoMap, hplain, hsec]
    rw [if_neg]
    · rfl
    · rintro ⟨_, hlen⟩
      simp at hlen
  have h1 : ExtractParametersFromText service input options
      = (GoOutcome.ret (some [], none), [[]]) := by
    rw [ExtractParametersFromText_def, hparse]
    rcases options with ⟨b⟩
    cases b <;> rfl
  refine ⟨h1, ?_⟩
  rw [ResolveParametersInText_def, h1]
  rfl

/-- Witness for C7 at the placeholder-free text `hello`. -/
theorem C7_witness :
    ExtractParametersFromText svcA "hello" ⟨false⟩
      = (GoOutcome.ret (some [], none), [[]]) ∧
    ResolveParametersInText svcA "hello" ⟨false⟩
      = (GoOutcome.ret ("hello", none), [[]]) :=
  C7_no_placeholders svcA "hello" ⟨false⟩ rfl

/-- C3: with `ResolveSecureParameters=false` and at least one secure-form
placeholder in the text, parsing fails with the policy error before the
lookup port is invoked: `ExtractParametersFromText` returns the error with
an empty list of lookup calls. -/
theorem C3_fail_fast_secure_syntax (service : List String → Except String RMap)
    (input : String) (options : ResolveOptions)
    (hopt : options.ResolveSecureParameters = false)
    (hsec : secureRefs input ≠ []) :
    parseParametersFromTextIntoMap input options
      = Except.error "resolving secure parameters is not allowed" ∧
    ExtractParametersFromText service input options
      = (GoOutcome.ret (none, some "resolving secure parameters is not allowed"), []) := by
  have hparse : parseParametersFromTextIntoMap input options
      = Except.error "resolving secure parameters is not allowed" := by
    simp only [parseParametersFromTextIntoMap]
    rw [if_pos ⟨hopt, List.length_pos.mpr hsec⟩]
  refine ⟨hparse, ?_⟩
  rw [ExtractParametersFromText_def, hparse]

/-- Witness for C3 at a text holding one secure placeholder. -/
theorem C3_witness :
    parseParametersFromTextIntoMap "\x7b\x7b ssm-secure:a \x7d\x7d" ⟨false⟩
      = Except.error "resolving secure parameters is not allowed" ∧
    ExtractParametersFromText svcA "\x7b\x7b ssm-secure:a \x7d\x7d" ⟨false⟩
      = (GoOutcome.ret (none, some "resolving secure parameters is not allowed"), []) :=
  C3_fail_fast_secure_syntax svcA "\x7b\x7b ssm-secure:a \x7d\x7d" ⟨false⟩ rfl (by decide)

/-- C10: whenever `ResolveParametersInText` returns a non-nil error, the
text it returns alongside is exactly the original input. -/
theorem C10_error_atomicity (service : List String → Except String RMap)
    (input : String) (options : ResolveOptions) (t e : String)
    (calls : List (List String))
    (h : ResolveParametersInText service input options
      = (GoOutcome.ret (t, some e), calls)) :
    t = input := by
  rcases hx : ExtractParametersFromText service input options with ⟨o, cs⟩
  rcases o with e2 | e2 | ⟨mOpt, errOpt⟩
  · have hr : ResolveParametersInText service input options = (GoOutcome.fatal e2, cs) := by
      rw [ResolveParametersInText_def, hx]
    rw [hr] at h
    simp at h
  · have hr : ResolveParametersInText service input options = (GoOutcome.panicked e2, cs) := by
      rw [ResolveParametersInText_def, hx]
    rw [hr] at h
    simp at h
  · rcases mOpt with _ | m
    · have hr : ResolveParametersInText service input options
          = (GoOutcome.ret (input, errOpt), cs) := by
        rw [ResolveParametersInText_def, hx]
      rw [hr] at h
      simp at h
      exact h.1.1.symm
    · have hr : ResolveParametersInText service input options
          = if errOpt.isSome ∨ m.length = 0 then (GoOutcome.ret (input, errOpt), cs)
            else match substituteAll m input with
              | GoOutcome.ret t2 => (GoOutcome.ret (t2, none), cs)
              | GoOutcome.panicked e2 => (GoOutcome.panicked e2, cs)
              | GoOutcome.fatal e2 => (GoOutcome.fatal e2, cs) := by
        rw [ResolveParametersInText_def, hx]
      by_cases hif : errOpt.isSome ∨ m.length = 0
      · rw [if_pos hif] at hr
        rw [hr] at h
        simp at h
        exact h.1.1.symm
      · rw [if_neg hif] at hr
        rcases hsub : substituteAll m input with e3 | e3 | t3 <;> rw [hsub] at hr <;>
          rw [hr] at h <;> simp at h

/-- Witness for C10 at a policy-rejected text. -/
theorem C10_witness :
    "\x7b\x7b ssm-secure:a \x7d\x7d" = "\x7b\x7b ssm-secure:a \x7d\x7d" :=
  C10_error_atomicity svcA "\x7b\x7b ssm-secure:a \x7d\x7d" ⟨false⟩
    "\x7b\x7b ssm-secure:a \x7d\x7d" "resolving secure parameters is not allowed" [] rfl

/-! Shared facts for the post-lookup policy filter. -/

lemma filter_secure_nil_spec {pm : RMap}
    (hfil : ¬0 < (pm.filter isSecureEntry).length) :
    ∀ kv ∈ pm, isSecureEntry kv = false := by
  have hnil : pm.filter isSecureEntry = [] := by
    rcases hfe : pm.filter isSecureEntry with _ | ⟨x, xs⟩
    · rfl
    · exact absurd (by rw [hfe]; simp) hfil
  intro kv hkv
  cases hbe : isSecureEntry kv
  · rfl
  · exfalso
    have hmem : kv ∈ pm.filter isSecureEntry := List.mem_filter.mpr ⟨hkv, hbe⟩
    rw [hnil] at hmem
    cases hmem

lemma filter_secure_pos {pm : RMap} (hex : ∃ kv ∈ pm, isSecureEntry kv = true) :
    0 < (pm.filter isSecureEntry).length := by
  obtain ⟨kv, hkv, hsec⟩ := hex
  exact List.length_pos.mpr (List.ne_nil_of_mem (List.mem_filter.mpr ⟨hkv, hsec⟩))

lemma ExtractParametersFromText_ok_parse {service : List String → Except String RMap}
    {input : String} {options : ResolveOptions} {refs : List String}
    (hp : parseParametersFromTextIntoMap input options = Except.ok refs) :
    ExtractParametersFromText service input options =
      match getParametersFromSsmParameterStore service refs with
      | Except.error e => (GoOutcome.fatal e, [refs])
      | Except.ok parametersWithValues =>
        if options.ResolveSecureParameters = false then
          if 0 < (parametersWithValues.filter isSecureEntry).length then
            (GoOutcome.ret (none, some "resolving secure parameters is not allowed"), [refs])
          else (GoOutcome.ret (some parametersWithValues, none), [refs])
        else (GoOutcome.ret (some parametersWithValues, none), [refs]) := by
  rw [ExtractParametersFromText_def, hp]

/-- C1: with `ResolveSecureParameters=false`, any resolution map returned by
`ExtractParametersFromText` or `ResolveParameterReferenceList` contains no
secure-classified entry (no key with the secure prefix, no secure-string
type); and if the lookup result contains any such entry, both operations
fail with the policy error and return no map at all. -/
theorem C1_no_secure_entries_returned (service : List String → Except String RMap)
    (input : String) (prefs : List String) (options : ResolveOptions)
    (hopt : options.ResolveSecureParameters = false) :
    (∀ m eo calls, ExtractParametersFromText service input options
        = (GoOutcome.ret (some m, eo), calls) → ∀ kv ∈ m, isSecureEntry kv = false) ∧
    (∀ m eo calls, ResolveParameterReferenceList service prefs options
        = (GoOutcome.ret (some m, eo), calls) → ∀ kv ∈ m, isSecureEntry kv = false) ∧
    (∀ refs pm, parseParametersFromTextIntoMap input options = Except.ok refs →
      getParametersFromSsmParameterStore service refs = Except.ok pm →
      (∃ kv ∈ pm, isSecureEntry kv = true) →
      ExtractParametersFromText service input options
        = (GoOutcome.ret (none, some "resolving secure parameters is not allowed"), [refs])) ∧
    (∀ pm, getParametersFromSsmParameterStore service (dedupSlice prefs) = Except.ok pm →
      (∃ kv ∈ pm, isSecureEntry kv = true) →
      ResolveParameterReferenceList service prefs options
        = (GoOutcome.ret (none, some "resolving secure parameters is not allowed"),
            [dedupSlice prefs])) := by
  refine ⟨?_, ?_, ?_, ?_⟩
  · intro m eo calls h kv hkv
    rcases hp : parseParametersFromTextIntoMap input options with e | refs
    · have hr : ExtractParametersFromText service input options
          = (GoOutcome.ret (none, some e), []) := by
        rw [ExtractParametersFromText_def, hp]
      rw [hr] at h
      simp at h
    · rcases hs : getParametersFromSsmParameterStore service refs with e | pm
      · have hr : ExtractParametersFromText service input options
            = (GoOutcome.fatal e, [refs]) := by
          rw [ExtractParametersFromText_ok_parse hp, hs]
        rw [hr] at h
        simp at h
      · have hr : ExtractParametersFromText service input options
            = if 0 < (pm.filter isSecureEntry).length then
                (GoOutcome.ret (none, some "resolving secure parameters is not allowed"),
                  [refs])
              else (GoOutcome.ret (some pm, none), [refs]) := by
          rw [ExtractParametersFromText_ok_parse hp, hs, hopt]
          rfl
        by_cases hfil : 0 < (pm.filter isSecureEntry).length
        · rw [if_pos hfil] at hr
          rw [hr] at h
          simp at h
        · rw [if_neg hfil] at hr
          rw [hr] at h
          simp at h
          obtain ⟨⟨hm, _⟩, _⟩ := h
          rw [← hm] at hkv
          exact filter_secure_nil_spec hfil kv hkv
  · intro m eo calls h kv hkv
    rcases hs : getParametersFromSsmParameterStore service (dedupSlice prefs) with e | pm
    · have hr : ResolveParameterReferenceList service prefs options
          = (GoOutcome.fatal e, [dedupSlice prefs]) := by
        rw [ResolveParameterReferenceList_def, hs]
      rw [hr] at h
      simp at h
    · have hr : ResolveParameterReferenceList service prefs options
          = if 0 < (pm.filter isSecureEntry).length then
              (GoOutcome.ret (none, some "resolving secure parameters is not allowed"),
                [dedupSlice prefs])
            else (GoOutcome.ret (some pm, none), [dedupSlice prefs]) := by
        rw [ResolveParameterReferenceList_def, hs, hopt]
        rfl
      by_cases hfil : 0 < (pm.filter isSecureEntry).length
      · rw [if_pos hfil] at hr
        rw [hr] at h
        simp at h
      · rw [if_neg hfil] at hr
        rw [hr] at h
        simp at h
        obtain ⟨⟨hm, _⟩, _⟩ := h
        rw [← hm] at hkv
        exact filter_secure_nil_spec hfil kv hkv
  · intro refs pm hp hs hex
    have hr : ExtractParametersFromText service input options
        = if 0 < (pm.filter isSecureEntry).length then
            (GoOutcome.ret (none, some "resolving secure parameters is not allowed"), [refs])
          else (GoOutcome.ret (some pm, none), [refs]) := by
      rw [ExtractParametersFromText_ok_parse hp, hs, hopt]
      rfl
    rw [hr, if_pos (filter_secure_pos hex)]
  · intro pm hs hex
    have hr : ResolveParameterReferenceList service prefs options
        = if 0 < (pm.filter isSecureEntry).length then
            (GoOutcome.ret (none, some "resolving secure parameters is not allowed"),
              [dedupSlice prefs])
          else (GoOutcome.ret (some pm, none), [dedupSlice prefs]) := by
      rw [ResolveParameterReferenceList_def, hs, hopt]
      rfl
    rw [hr, if_pos (filter_secure_pos hex)]

/-- Witness for C1: a plain-syntax reference resolving to a secure-string
type makes the whole extraction fail with the policy error. -/
theorem C1_witness :
    ExtractParametersFromText svcSecure "\x7b\x7b a \x7d\x7d" ⟨false⟩
      = (GoOutcome.ret (none, some "resolving secure parameters is not allowed"), [["a"]]) :=
  (C1_no_secure_entries_returned svcSecure "\x7b\x7b a \x7d\x7d" [] ⟨false⟩ rfl).2.2.1 ["a"]
    [("a", ⟨"V", ParamType.secureString⟩)] rfl rfl
    ⟨("a", ⟨"V", ParamType.secureString⟩), by decide, rfl⟩

/-- C2: contrary to the error-propagation contract, a lookup-port failure
and an output-write failure are routed through `log.Fatal` (process
termination, `GoOutcome.fatal`) in `ExtractParametersFromText`,
`ResolveParameterReferenceList` and `ResolveParametersInFile`; the
`return` statements after those calls are dead code. -/
theorem C2_log_fatal_on_store_and_write_errors :
    ExtractParametersFromText svcErr "\x7b\x7b a \x7d\x7d" ⟨false⟩
      = (GoOutcome.fatal "store unreachable", [["a"]]) ∧
    ResolveParameterReferenceList svcErr ["a"] ⟨false⟩
      = (GoOutcome.fatal "store unreachable", [["a"]]) ∧
    ResolveParametersInFile svcA vOk rOk wErr "in" "out" ⟨false⟩
      = ⟨GoOutcome.fatal "disk full", [("V", "out")], [["a"]]⟩ :=
  ⟨rfl, rfl, rfl⟩

/-- C9: the substitution loop panics on a resolution-map key that is not a
compilable pattern fragment (here `a(`, reaching `ResolveParametersInText`
through a lookup result), and it is total — always reaching the
`ReplaceAllString` fold — exactly when every key is admissible. -/
theorem C9_mustcompile_panic_and_totality :
    ResolveParametersInText svcBadKey "\x7b\x7b x \x7d\x7d" ⟨false⟩
      = (GoOutcome.panicked "regexp: Compile: error parsing regexp", [["x"]]) ∧
    ∀ (entries : RMap) (text : String),
      (∀ kv ∈ entries, patternOk kv.1 = true) →
      substituteAll entries text
        = GoOutcome.ret (String.mk (substFold entries text.toList)) :=
  ⟨rfl, substituteAll_eq_fold⟩

/-- Witness for C9's totality half on an admissible one-key map. -/
theorem C9_witness :
    substituteAll [("a", infoV)] "\x7b\x7b a \x7d\x7d"
      = GoOutcome.ret (String.mk (substFold [("a", infoV)] "\x7b\x7b a \x7d\x7d".toList)) :=
  C9_mustcompile_panic_and_totality.2 [("a", infoV)] "\x7b\x7b a \x7d\x7d" (by decide)

/-- C8: the reference set passed to the lookup port never contains
duplicates — both for text parsing and for explicit reference lists — and
with `\x7b\x7b a \x7d\x7d` occurring three times the port receives the
single-element set `[a]` while all three occurrences get substituted. -/
theorem C8_dedup_before_lookup :
    (∀ (input : String) (options : ResolveOptions) (refs : List String),
      parseParametersFromTextIntoMap input options = Except.ok refs → refs.Nodup) ∧
    (∀ slice : List String, (dedupSlice slice).Nodup ∧ ∀ x ∈ dedupSlice slice, x ∈ slice) ∧
    ExtractParametersFromText svcA
        "\x7b\x7b a \x7d\x7d x \x7b\x7b a \x7d\x7d y \x7b\x7b a \x7d\x7d" ⟨false⟩
      = (GoOutcome.ret (some [("a", infoV)], none), [["a"]]) ∧
    ResolveParametersInText svcA
        "\x7b\x7b a \x7d\x7d x \x7b\x7b a \x7d\x7d y \x7b\x7b a \x7d\x7d" ⟨false⟩
      = (GoOutcome.ret ("V x V y V", none), [["a"]]) := by
  refine ⟨?_, ?_, rfl, rfl⟩
  · intro input options refs hp
    simp only [parseParametersFromTextIntoMap] at hp
    split at hp
    · cases hp
    · obtain rfl : dedupFirst (plainRefs input ++ secureRefs input) = refs := by
        cases hp
        rfl
      exact dedupFirst_nodup _
  · intro slice
    exact ⟨dedupFirst_nodup slice, fun x hx => mem_dedupFirst.mp hx⟩

/-- Witness for C8's parse-deduplication half. -/
theorem C8_witness : (["b", "a"] : List String).Nodup :=
  C8_dedup_before_lookup.1 "\x7b\x7b b \x7d\x7d \x7b\x7b a \x7d\x7d \x7b\x7b b \x7d\x7d"
    ⟨false⟩ ["b", "a"] rfl

/-- C6 counterexample: a successful run over a valid, placeholder-free
input file returns no error yet performs no write at all — the output file
is never produced, contradicting the claimed unconditional
validate-read-resolve-write pipeline. -/
theorem C6_counterexample :
    ResolveParametersInFile svcEmpty vOk rHello wOk "in" "out" ⟨false⟩
      = ⟨GoOutcome.ret none, [], [[]]⟩ := rfl

/-- C6 (amended): a successful `ResolveParametersInFile` run writes the
substituted text to the output file when the resolution map is nonempty;
when extraction yields an empty map (zero placeholders) the run succeeds
without writing the output file. -/
theorem C6_file_write_pipeline (service : List String → Except String RMap)
    (validateFileAndSize : String → Option String)
    (readTextFromFile : String → Except String String)
    (writeToFile : String → String → Option String)
    (inputFileName outputFileName : String) (options : ResolveOptions)
    (text t : String) (m : RMap) (calls : List (List String))
    (hin : inputFileName.length ≠ 0) (hout : outputFileName.length ≠ 0)
    (hval : validateFileAndSize inputFileName = none)
    (hread : readTextFromFile inputFileName = Except.ok text)
    (hx : ExtractParametersFromText service text options
      = (GoOutcome.ret (some m, none), calls)) :
    (m ≠ [] → substituteAll m text = GoOutcome.ret t →
      writeToFile t outputFileName = none →
      ResolveParametersInFile service validateFileAndSize readTextFromFile writeToFile
          inputFileName outputFileName options
        = ⟨GoOutcome.ret none, [(t, outputFileName)], calls⟩) ∧
    (m = [] →
      ResolveParametersInFile service validateFileAndSize readTextFromFile writeToFile
          inputFileName outputFileName options
        = ⟨GoOutcome.ret none, [], calls⟩) := by
  have hr0 : ResolveParametersInFile service validateFileAndSize readTextFromFile writeToFile
      inputFileName outputFileName options
      = match ExtractParametersFromText service text options with
        | (GoOutcome.fatal e, calls) => ⟨GoOutcome.fatal e, [], calls⟩
        | (GoOutcome.panicked e, calls) => ⟨GoOutcome.panicked e, [], calls⟩
        | (GoOutcome.ret (mOpt, errOpt), calls) =>
          match mOpt with
          | none => ⟨GoOutcome.ret errOpt, [], calls⟩
          | some resolvedParametersMap =>
            if errOpt.isSome ∨ resolvedParametersMap.length = 0 then
              ⟨GoOutcome.ret errOpt, [], calls⟩
            else
              match substituteAll resolvedParametersMap text with
              | GoOutcome.panicked e => ⟨GoOutcome.panicked e, [], calls⟩
              | GoOutcome.fatal e => ⟨GoOutcome.fatal e, [], calls⟩
              | GoOutcome.ret t2 =>
                match writeToFile t2 outputFileName with
                | some e => ⟨GoOutcome.fatal e, [(t2, outputFileName)], calls⟩
                | none => ⟨GoOutcome.ret none, [(t2, outputFileName)], calls⟩ := by
    rw [ResolveParametersInFile_def, if_neg hin, if_neg hout, hval, hread]
  have hr : ResolveParametersInFile service validateFileAndSize readTextFromFile writeToFile
      inputFileName outputFileName options
      = if (none : Option String).isSome ∨ m.length = 0 then
          ⟨GoOutcome.ret none, [], calls⟩
        else match substituteAll m text with
          | GoOutcome.panicked e => ⟨GoOutcome.panicked e, [], calls⟩
          | GoOutcome.fatal e => ⟨GoOutcome.fatal e, [], calls⟩
          | GoOutcome.ret t2 =>
            match writeToFile t2 outputFileName with
            | some e => ⟨GoOutcome.fatal e, [(t2, outputFileName)], calls⟩
            | none => ⟨GoOutcome.ret none, [(t2, outputFileName)], calls⟩ := by
    rw [hr0, hx]
  constructor
  · intro hm hsub hw
    have hmlen : ¬((none : Option String).isSome ∨ m.length = 0) := by
      simp [List.length_eq_zero, hm]
    rw [hr, if_neg hmlen, hsub]
    show (match writeToFile t outputFileName with
      | some e => (⟨GoOutcome.fatal e, [(t, outputFileName)], calls⟩ : FileRunResult)
      | none => ⟨GoOutcome.ret none, [(t, outputFileName)], calls⟩)
      = ⟨GoOutcome.ret none, [(t, outputFileName)], calls⟩
    rw [hw]
  · intro hm
    subst hm
    have hc : (none : Option String).isSome = true ∨ ([] : RMap).length = 0 := Or.inr rfl
    rw [hr, if_pos hc]

/-- Witness for the amended C6: one placeholder, resolved and written. -/
theorem C6_witness :
    ResolveParametersInFile svcA vOk rOk wOk "in" "out" ⟨false⟩
      = ⟨GoOutcome.ret none, [("V", "out")], [["a"]]⟩ :=
  (C6_file_write_pipeline svcA vOk rOk wOk "in" "out" ⟨false⟩ "\x7b\x7b a \x7d\x7d" "V"
    [("a", infoV)] [["a"]] (by decide) (by decide) rfl rfl rfl).1
    (by decide) rfl rfl

lemma spaces_ws (n : Nat) : ∀ c ∈ spaces n, isWsChar c = true := by
  intro c hc
  rw [spaces] at hc
  rw [List.eq_of_mem_replicate hc]
  rfl

/-- C5 counterexample: the claim's "both are replaced by its value" fails
for values containing a `$` sign, because `ReplaceAllString` treats the
replacement as a `$`-expansion template: with value `$0` every placeholder
is replaced by the matched text itself, so the output equals the original
document and differs from the value-substituted text the claim predicts
(the two surface forms even re-insert different text). -/
theorem C5_counterexample :
    replaceAll "name".toList "$0".toList
        "\x7b\x7b name \x7d\x7d and \x7b\x7b  name  \x7d\x7d".toList
      = "\x7b\x7b name \x7d\x7d and \x7b\x7b  name  \x7d\x7d".toList ∧
    "\x7b\x7b name \x7d\x7d and \x7b\x7b  name  \x7d\x7d".toList
      ≠ "$0 and $0".toList :=
  ⟨rfl, by decide⟩

/-- C5 (amended): placeholder syntax round-trips.  A reference `r` wrapped
in the double-brace pattern with any interior whitespace is extracted
verbatim by the parser, and the substitution pattern built from the
extracted `r` matches that original occurrence, replacing it with the
value — so `{{ name }}` and `{{  name  }}` extract the same reference and
are both replaced by the value — provided the value contains no `$` sign
(otherwise `ReplaceAllString` expands it as a replacement template instead
of inserting it verbatim). -/
theorem C5_placeholder_roundtrip (a r v b : List Char) (i j : Nat)
    (ha : ∀ c ∈ a, c ≠ '\x7b')
    (hr : r ≠ []) (hrc : ∀ c ∈ r, isRefChar c = true)
    (hv : ∀ c ∈ v, ¬c = '$') :
    (∃ l, parseParametersFromTextIntoMap
        (String.mk (a ++ '\x7b' :: '\x7b' ::
          (spaces i ++ r ++ spaces j ++ '\x7d' :: '\x7d' :: b))) ⟨true⟩
        = Except.ok l ∧ String.mk r ∈ l) ∧
    replaceAll r v (a ++ '\x7b' :: '\x7b' ::
        (spaces i ++ r ++ spaces j ++ '\x7d' :: '\x7d' :: b))
      = a ++ v ++ replaceAll r v b := by
  have hfind : findAllRefs (a ++ '\x7b' :: '\x7b' ::
      (spaces i ++ r ++ spaces j ++ '\x7d' :: '\x7d' :: b))
      = String.mk r :: findAllRefs b := by
    rw [findAllRefs_append_nolb ha,
      findAllRefs_cons_some (matchCapture_complete b hr hrc (spaces_ws i) (spaces_ws j))]
  have hparse : parseParametersFromTextIntoMap
      (String.mk (a ++ '\x7b' :: '\x7b' ::
        (spaces i ++ r ++ spaces j ++ '\x7d' :: '\x7d' :: b))) ⟨true⟩
      = Except.ok (dedupFirst
          (plainRefs (String.mk (a ++ '\x7b' :: '\x7b' ::
            (spaces i ++ r ++ spaces j ++ '\x7d' :: '\x7d' :: b)))
          ++ secureRefs (String.mk (a ++ '\x7b' :: '\x7b' ::
            (spaces i ++ r ++ spaces j ++ '\x7d' :: '\x7d' :: b))))) := by
    simp only [parseParametersFromTextIntoMap]
    rw [if_neg]
    rintro ⟨hfalse, _⟩
    cases hfalse
  refine ⟨⟨_, hparse, ?_⟩, ?_⟩
  · rw [mem_dedupFirst, List.mem_append]
    have hmem : String.mk r ∈ findAllRefs (String.mk (a ++ '\x7b' :: '\x7b' ::
        (spaces i ++ r ++ spaces j ++ '\x7d' :: '\x7d' :: b))).toList := by
      show String.mk r ∈ findAllRefs (a ++ '\x7b' :: '\x7b' ::
        (spaces i ++ r ++ spaces j ++ '\x7d' :: '\x7d' :: b))
      rw [hfind]
      exact List.mem_cons_self _ _
    by_cases hsec : hasPrefix ssmSecurePrefix (String.mk r) = true
    · right
      rw [secureRefs]
      exact List.mem_filter.mpr ⟨hmem, hsec⟩
    · left
      rw [plainRefs]
      refine List.mem_filter.mpr ⟨hmem, ?_⟩
      rw [Bool.not_eq_true] at hsec
      rw [hsec]
      rfl
  · rw [replaceAll_append_nolb ha,
      replaceAll_span_step b hr hrc (spaces_ws i) (spaces_ws j),
      expandTemplate_no_dollar _ hv]
    simp [List.append_assoc]

/-- Witness for C5 on `A: {{ name  }}!` with reference `name`. -/
theorem C5_witness :
    ("name" ∈ (["name"] : List String)) ∧
    replaceAll "name".toList "val".toList ("A: ".toList ++ '\x7b' :: '\x7b' ::
        (spaces 1 ++ "name".toList ++ spaces 2 ++ '\x7d' :: '\x7d' :: "!".toList))
      = "A: ".toList ++ "val".toList ++ replaceAll "name".toList "val".toList "!".toList := by
  obtain ⟨⟨l, hl, hmem⟩, hrepl⟩ :=
    C5_placeholder_roundtrip "A: ".toList "name".toList "val".toList "!".toList 1 2
      (by decide) (by decide) (by decide) (by decide)
  have hl2 : l = ["name"] := by
    have hok : Except.ok (ε := String) l = Except.ok ["name"] := hl.symm.trans (by rfl)
    exact Except.ok.inj hok
  refine ⟨?_, hrepl⟩
  rw [← hl2]
  exact hmem

end Resolver
